import Mathlib

/-!
Verification of the 2D Ising model Monte Carlo engine (ising.py).

The data model and operations are embedded shallowly:

* `IsingLattice` mirrors the dataclass: linear size, temperature `T`, and the
  spin array `system`.  The numpy array is embedded as a total function
  `ℤ → ℤ → ℤ`; the code only ever reads it at wrapped or in-range indices.
* Pure functions (`BoundaryCondition`, `CalculateEnergy`, `InternalEnergy`,
  `HeatCapacity`, `Magnetization`) become Lean functions over `ℤ`/`ℚ`
  (exact arithmetic in place of Python floats; all quantities here are
  ratios of small integers).
* `BuildSystem` returns `Except String IsingLattice`: the `ValueError`
  raised for an unrecognized mode token becomes the `.error` branch, and the
  `ValueError` numpy raises for negative array dimensions is modelled by the
  guard on negative sizes.  The `np.random.choice([-1, 1], ...)` source is
  passed in as a boolean-valued draw function, so the built spins are ±1 by
  construction, as in the code.
* The Metropolis step `UpdateLattice` draws a site and (on the costly
  branch) a uniform value, and compares against `Real.exp`; it is embedded
  as the deterministic relation `UpdateLatticeRel` between the pre-state and
  the post-state, parametrised by the drawn site `(N, M)` and the drawn
  uniform value `u`.
-/

namespace Ising

/-- The lattice dataclass: linear size, temperature, spin array. -/
structure IsingLattice where
  size : ℕ
  T : ℚ
  system : ℤ → ℤ → ℤ

/-- `BuildSystem(initial_state, size, temperature)`: mode token `r` builds a
lattice whose cells come from the random ±1 source `draw`, mode token `u`
builds the all `+1` lattice (`np.ones`), and any other token raises
`ValueError`.  numpy refuses negative dimensions, so a negative `size`
also errors in either mode; `size = 0` builds an empty array without
complaint. -/
def BuildSystem (initial_state : String) (size : ℤ) (temperature : ℚ)
    (draw : ℤ → ℤ → Bool) : Except String IsingLattice :=
  if initial_state = "r" then
    if size < 0 then .error "negative dimensions are not allowed"
    else .ok ⟨size.toNat, temperature, fun i j => if draw i j then 1 else -1⟩
  else if initial_state = "u" then
    if size < 0 then .error "negative dimensions are not allowed"
    else .ok ⟨size.toNat, temperature, fun _ _ => 1⟩
  else .error "Initial State must be r, random, or u, uniform"

/-- `BoundaryCondition(i, lattice) = i % lattice.size`; Python `%` on a
positive modulus is `Int.emod`. -/
def BoundaryCondition (i : ℤ) (lattice : IsingLattice) : ℤ :=
  i % (lattice.size : ℤ)

/-- `CalculateEnergy(lattice, N, M)`: accumulate the two row neighbors
`(N-1, M)`, `(N+1, M)` and the two column neighbors `(N, M-1)`, `(N, M+1)`
(each out-of-range coordinate routed through `BoundaryCondition`), then
return `-2 * system[N, M] * neighbor_energy`. -/
def CalculateEnergy (lattice : IsingLattice) (N M : ℤ) : ℤ :=
  -2 * lattice.system N M *
    (lattice.system (BoundaryCondition (N - 1) lattice) M
      + lattice.system (BoundaryCondition (N + 1) lattice) M
      + lattice.system N (BoundaryCondition (M - 1) lattice)
      + lattice.system N (BoundaryCondition (M + 1) lattice))

/-- `ΔE = -1 * CalculateEnergy(lattice, N, M)` as computed by
`UpdateLattice`. -/
def deltaE (lattice : IsingLattice) (N M : ℤ) : ℤ :=
  -1 * CalculateEnergy lattice N M

/-- `lattice.system[N, M] *= -1`: the in-place single-site flip. -/
def flipAt (lattice : IsingLattice) (N M : ℤ) : IsingLattice :=
  { lattice with
    system := fun i j =>
      if i = N ∧ j = M then -1 * lattice.system i j else lattice.system i j }

/-- The acceptance condition of the step, with the site draw `(N, M)` and
the uniform draw `u` made explicit: the `if` branch accepts when
`ΔE ≤ 0`, the `elif` branch accepts when `np.exp(-ΔE * 1/lattice.T)`
exceeds the uniform draw. -/
def accepts (lattice : IsingLattice) (N M : ℤ) (u : ℝ) : Prop :=
  deltaE lattice N M ≤ 0 ∨
    Real.exp (-(deltaE lattice N M : ℝ) * (1 / (lattice.T : ℝ))) > u

/-- `UpdateLattice` as a relation between pre- and post-state, given the
drawn site `(N, M)` and the drawn uniform value `u`: on acceptance the site
is flipped in place, otherwise the lattice is returned unchanged. -/
def UpdateLatticeRel (lattice : IsingLattice) (N M : ℤ) (u : ℝ)
    (lattice' : IsingLattice) : Prop :=
  (accepts lattice N M u → lattice' = flipAt lattice N M) ∧
  (¬ accepts lattice N M u → lattice' = lattice)

/-- A finite sequence of `UpdateLattice` calls, one `(N, M, u)` draw triple
per call. -/
def StepsRel (lattice : IsingLattice) :
    List (ℤ × ℤ × ℝ) → IsingLattice → Prop
  | [], lattice' => lattice' = lattice
  | d :: ds, lattice' =>
      ∃ mid, UpdateLatticeRel lattice d.1 d.2.1 d.2.2 mid ∧
        StepsRel mid ds lattice'

/-- `InternalEnergy(lattice)`: the double loop accumulating `E += e` and
`E_2 += e**2` over all sites, then `U = (1/size**2)*E`,
`U_2 = (1/size**2)*E_2`, returned as the pair `(U, U_2)`. -/
def InternalEnergy (lattice : IsingLattice) : ℚ × ℚ :=
  let EE :=
    (List.range lattice.size).foldl
      (fun (acc : ℤ × ℤ) (i : ℕ) =>
        (List.range lattice.size).foldl
          (fun (acc2 : ℤ × ℤ) (j : ℕ) =>
            let e := CalculateEnergy lattice (i : ℤ) (j : ℤ)
            (acc2.1 + e, acc2.2 + e ^ 2))
          acc)
      ((0 : ℤ), (0 : ℤ))
  ((1 / (lattice.size : ℚ) ^ 2) * (EE.1 : ℚ),
   (1 / (lattice.size : ℚ) ^ 2) * (EE.2 : ℚ))

/-- `HeatCapacity(lattice) = U_2 - U**2` from `InternalEnergy`. -/
def HeatCapacity (lattice : IsingLattice) : ℚ :=
  let UU := InternalEnergy lattice
  UU.2 - UU.1 ^ 2

/-- `Magnetization(lattice) = np.abs(np.sum(lattice.system)/lattice.size**2)`. -/
def Magnetization (lattice : IsingLattice) : ℚ :=
  |(∑ i ∈ Finset.range lattice.size, ∑ j ∈ Finset.range lattice.size,
      lattice.system (i : ℤ) (j : ℤ) : ℚ) / (lattice.size : ℚ) ^ 2|

/-- Every cell of the spin array is exactly `-1` or `+1`. -/
def ValidSpins (lattice : IsingLattice) : Prop :=
  ∀ i j : ℤ, lattice.system i j = 1 ∨ lattice.system i j = -1

/-- Global spin inversion: negate every cell simultaneously. -/
def negLattice (lattice : IsingLattice) : IsingLattice :=
  { lattice with system := fun i j => -(lattice.system i j) }

/-- The site draw `np.random.randint(0, lattice.size, 2)` that begins
`UpdateLattice`: numpy raises `ValueError: low >= high` exactly when the
range `[0, size)` is empty, i.e. when `size = 0`; on a positive size the
draw succeeds and the rest of the step is total arithmetic on the drawn
site. -/
def UpdateLatticeRandint (lattice : IsingLattice) : Except String Unit :=
  if lattice.size = 0 then .error "low >= high" else .ok ()

/-- `InternalEnergy` with its division modelled fallibly: the Python
expression `(1/lattice.size**2)` raises `ZeroDivisionError` when
`size = 0`; otherwise the loop and scaling of `InternalEnergy` run to
completion. -/
def InternalEnergyE (lattice : IsingLattice) : Except String (ℚ × ℚ) :=
  if lattice.size = 0 then .error "division by zero"
  else .ok (InternalEnergy lattice)

/-- `HeatCapacity` computed through the fallible `InternalEnergyE`:
`U_2 - U**2` once the pair is obtained, propagating the
`ZeroDivisionError`. -/
def HeatCapacityE (lattice : IsingLattice) : Except String ℚ :=
  match InternalEnergyE lattice with
  | .error e => .error e
  | .ok UU => .ok (UU.2 - UU.1 ^ 2)

/-! ### Concrete lattices used to instantiate hypotheses -/

/-- The 1×1 uniform lattice at temperature 1. -/
def latU1 : IsingLattice := ⟨1, 1, fun _ _ => 1⟩

/-- A 2×2 checkerboard lattice at temperature 1. -/
def latCB : IsingLattice := ⟨2, 1, fun i j => if (i + j) % 2 = 0 then 1 else -1⟩

theorem latCB_valid : ValidSpins latCB := by
  intro i j
  simp only [latCB, ValidSpins]
  split
  · exact Or.inl rfl
  · exact Or.inr rfl

theorem latU1_valid : ValidSpins latU1 := fun _ _ => Or.inl rfl

/-! ### Claim theorems -/

/-- Claim C3: for every integer coordinate and every lattice of positive
size, `BoundaryCondition` returns the true mathematical modulus: the result
lies in `[0, size)` and differs from the input by a multiple of `size`;
in particular `wrap (-1) = size - 1` and `wrap size = 0`. -/
theorem BoundaryCondition_spec (lattice : IsingLattice) (i : ℤ)
    (hsize : 0 < lattice.size) :
    (0 ≤ BoundaryCondition i lattice ∧
      BoundaryCondition i lattice < (lattice.size : ℤ) ∧
      (lattice.size : ℤ) ∣ (i - BoundaryCondition i lattice)) ∧
    BoundaryCondition (-1) lattice = (lattice.size : ℤ) - 1 ∧
    BoundaryCondition (lattice.size : ℤ) lattice = 0 := by
  have hpos : (0 : ℤ) < (lattice.size : ℤ) := by exact_mod_cast hsize
  have hne : (lattice.size : ℤ) ≠ 0 := ne_of_gt hpos
  refine ⟨⟨Int.emod_nonneg i hne, Int.emod_lt_of_pos i hpos, ?_⟩, ?_, ?_⟩
  · unfold BoundaryCondition
    have := Int.emod_add_ediv i (lattice.size : ℤ)
    exact ⟨i / (lattice.size : ℤ), by omega⟩
  · unfold BoundaryCondition
    have h1 : ((-1 : ℤ) + (lattice.size : ℤ) * 1) % (lattice.size : ℤ) =
        (-1 : ℤ) % (lattice.size : ℤ) :=
      @Int.add_mul_emod_self_left (-1) ((lattice.size : ℤ)) 1
    rw [mul_one] at h1
    have h2 : (-1 + (lattice.size : ℤ)) % (lattice.size : ℤ) =
        -1 + (lattice.size : ℤ) :=
      Int.emod_eq_of_lt (by omega) (by omega)
    omega
  · unfold BoundaryCondition
    exact Int.emod_self

/-- Claim C3 witness: instantiated on a 2×2 lattice at coordinate `-3`. -/
theorem BoundaryCondition_spec_witness :
    (0 ≤ BoundaryCondition (-3) latCB ∧
      BoundaryCondition (-3) latCB < (latCB.size : ℤ) ∧
      (latCB.size : ℤ) ∣ ((-3) - BoundaryCondition (-3) latCB)) ∧
    BoundaryCondition (-1) latCB = (latCB.size : ℤ) - 1 ∧
    BoundaryCondition (latCB.size : ℤ) latCB = 0 :=
  BoundaryCondition_spec latCB (-3) (by decide)

/-- Claim C2: on a lattice whose cells are all ±1 and at an in-range site,
`CalculateEnergy` equals `-2` times the spin at the site times the sum of
the four periodically wrapped nearest-neighbor spins, and its value lies in
`{-8, -4, 0, 4, 8}`. -/
theorem CalculateEnergy_spec (lattice : IsingLattice) (N M : ℤ)
    (hv : ValidSpins lattice)
    (_hN : 0 ≤ N) (_hN2 : N < (lattice.size : ℤ))
    (_hM : 0 ≤ M) (_hM2 : M < (lattice.size : ℤ)) :
    CalculateEnergy lattice N M =
      -2 * lattice.system N M *
        (lattice.system (BoundaryCondition (N - 1) lattice) M
          + lattice.system (BoundaryCondition (N + 1) lattice) M
          + lattice.system N (BoundaryCondition (M - 1) lattice)
          + lattice.system N (BoundaryCondition (M + 1) lattice)) ∧
    (CalculateEnergy lattice N M = -8 ∨ CalculateEnergy lattice N M = -4 ∨
      CalculateEnergy lattice N M = 0 ∨ CalculateEnergy lattice N M = 4 ∨
      CalculateEnergy lattice N M = 8) := by
  refine ⟨rfl, ?_⟩
  obtain hA | hA := hv N M <;>
    obtain hB | hB := hv (BoundaryCondition (N - 1) lattice) M <;>
    obtain hC | hC := hv (BoundaryCondition (N + 1) lattice) M <;>
    obtain hD | hD := hv N (BoundaryCondition (M - 1) lattice) <;>
    obtain hE | hE := hv N (BoundaryCondition (M + 1) lattice) <;>
    simp only [CalculateEnergy, hA, hB, hC, hD, hE] <;> decide

/-- Claim C2 witness: instantiated on the 2×2 checkerboard at site (0, 1). -/
theorem CalculateEnergy_spec_witness :
    CalculateEnergy latCB 0 1 =
      -2 * latCB.system 0 1 *
        (latCB.system (BoundaryCondition (0 - 1) latCB) 1
          + latCB.system (BoundaryCondition (0 + 1) latCB) 1
          + latCB.system 0 (BoundaryCondition (1 - 1) latCB)
          + latCB.system 0 (BoundaryCondition (1 + 1) latCB)) ∧
    (CalculateEnergy latCB 0 1 = -8 ∨ CalculateEnergy latCB 0 1 = -4 ∨
      CalculateEnergy latCB 0 1 = 0 ∨ CalculateEnergy latCB 0 1 = 4 ∨
      CalculateEnergy latCB 0 1 = 8) :=
  CalculateEnergy_spec latCB 0 1 latCB_valid (by decide) (by decide)
    (by decide) (by decide)

/-- Claim C1: given the drawn site `(N, M)` (uniform draws land in
`[0, size)`) and the uniform value `u` in `[0, 1)`, the step computes
`ΔE = -localEnergy`, flips the site unconditionally when `ΔE ≤ 0`,
otherwise flips it exactly when `exp(-ΔE / T) > u`, leaves the whole array
unchanged on rejection, and never modifies any cell other than `(N, M)`. -/
theorem UpdateLattice_spec (lattice : IsingLattice) (N M : ℤ) (u : ℝ)
    (lattice' : IsingLattice)
    (_hsize : 0 < lattice.size)
    (hs : lattice.system N M = 1 ∨ lattice.system N M = -1)
    (_hN : 0 ≤ N) (_hN2 : N < (lattice.size : ℤ))
    (_hM : 0 ≤ M) (_hM2 : M < (lattice.size : ℤ))
    (_hu : 0 ≤ u ∧ u < 1)
    (hstep : UpdateLatticeRel lattice N M u lattice') :
    deltaE lattice N M = -1 * CalculateEnergy lattice N M ∧
    (deltaE lattice N M ≤ 0 → lattice' = flipAt lattice N M) ∧
    (0 < deltaE lattice N M →
      (lattice'.system N M = -1 * lattice.system N M ↔
        Real.exp (-(deltaE lattice N M : ℝ) * (1 / (lattice.T : ℝ))) > u)) ∧
    (¬ accepts lattice N M u → lattice' = lattice) ∧
    (∀ i j : ℤ, ¬ (i = N ∧ j = M) → lattice'.system i j = lattice.system i j) := by
  have hs0 : lattice.system N M ≠ -1 * lattice.system N M := by
    obtain h | h := hs <;> rw [h] <;> decide
  refine ⟨rfl, ?_, ?_, hstep.2, ?_⟩
  · intro hle
    exact hstep.1 (Or.inl hle)
  · intro hpos
    constructor
    · intro hflip
      by_cases ha : accepts lattice N M u
      · obtain hle | hexp := ha
        · omega
        · exact hexp
      · rw [hstep.2 ha] at hflip
        exact absurd hflip hs0
    · intro hexp
      rw [hstep.1 (Or.inr hexp)]
      simp [flipAt]
  · intro i j hij
    by_cases ha : accepts lattice N M u
    · rw [hstep.1 ha]
      simp only [flipAt]
      rw [if_neg hij]
    · rw [hstep.2 ha]

/-- Claim C1 witness: on the 2×2 checkerboard at site (0, 0) the move is
energy-lowering (`ΔE = -8`), so the step flips the site. -/
theorem UpdateLattice_spec_witness :
    deltaE latCB 0 0 = -1 * CalculateEnergy latCB 0 0 ∧
    (deltaE latCB 0 0 ≤ 0 → flipAt latCB 0 0 = flipAt latCB 0 0) ∧
    (0 < deltaE latCB 0 0 →
      ((flipAt latCB 0 0).system 0 0 = -1 * latCB.system 0 0 ↔
        Real.exp (-(deltaE latCB 0 0 : ℝ) * (1 / (latCB.T : ℝ))) > (1/2 : ℝ))) ∧
    (¬ accepts latCB 0 0 (1/2 : ℝ) → flipAt latCB 0 0 = latCB) ∧
    (∀ i j : ℤ, ¬ (i = 0 ∧ j = 0) →
      (flipAt latCB 0 0).system i j = latCB.system i j) :=
  UpdateLattice_spec latCB 0 0 (1/2 : ℝ) (flipAt latCB 0 0) (by decide)
    (Or.inl (by decide)) (by decide) (by decide) (by decide) (by decide)
    (by norm_num)
    ⟨fun _ => rfl, fun h => absurd (Or.inl (by decide)) h⟩

/-- Any lattice returned by `BuildSystem` has all cells equal to ±1. -/
theorem BuildSystem_valid {mode : String} {s : ℤ} {t : ℚ}
    {d : ℤ → ℤ → Bool} {lattice : IsingLattice}
    (h : BuildSystem mode s t d = .ok lattice) : ValidSpins lattice := by
  unfold BuildSystem at h
  split at h
  · split at h
    · cases h
    · cases h
      intro i j
      dsimp only
      split
      · exact Or.inl rfl
      · exact Or.inr rfl
  · split at h
    · split at h
      · cases h
      · cases h
        intro i j
        exact Or.inl rfl
    · cases h

/-- One `UpdateLattice` call preserves the ±1 spin invariant. -/
theorem UpdateLatticeRel_valid {lattice lattice' : IsingLattice}
    {N M : ℤ} {u : ℝ} (hv : ValidSpins lattice)
    (h : UpdateLatticeRel lattice N M u lattice') : ValidSpins lattice' := by
  by_cases ha : accepts lattice N M u
  · rw [h.1 ha]
    intro i j
    simp only [flipAt]
    split
    · obtain h' | h' := hv i j <;> rw [h'] <;> [exact Or.inr rfl; exact Or.inl rfl]
    · exact hv i j
  · rw [h.2 ha]
    exact hv

/-- A finite sequence of `UpdateLattice` calls preserves the ±1 spin
invariant. -/
theorem StepsRel_valid {lattice : IsingLattice} (ds : List (ℤ × ℤ × ℝ))
    {lattice' : IsingLattice} (hv : ValidSpins lattice)
    (h : StepsRel lattice ds lattice') : ValidSpins lattice' := by
  induction ds generalizing lattice with
  | nil => rw [show StepsRel lattice [] lattice' = (lattice' = lattice) from rfl] at h
           rw [h]; exact hv
  | cons d ds ih =>
      obtain ⟨mid, h1, h2⟩ := h
      exact ih (UpdateLatticeRel_valid hv h1) h2

/-- Claim C4: starting from any lattice produced by `BuildSystem` (either
mode), after any finite sequence of Metropolis steps every cell of the spin
array is still exactly `-1` or `+1`. -/
theorem step_invariant (mode : String) (s : ℤ) (t : ℚ) (d : ℤ → ℤ → Bool)
    (lattice : IsingLattice) (ds : List (ℤ × ℤ × ℝ))
    (lattice' : IsingLattice) (i j : ℤ)
    (hb : BuildSystem mode s t d = .ok lattice)
    (hsteps : StepsRel lattice ds lattice') :
    lattice'.system i j = 1 ∨ lattice'.system i j = -1 :=
  StepsRel_valid ds (BuildSystem_valid hb) hsteps i j

/-- Claim C4 witness: the uniform 1×1 lattice after the empty step
sequence. -/
theorem step_invariant_witness :
    latU1.system 0 0 = 1 ∨ latU1.system 0 0 = -1 :=
  step_invariant "u" 1 1 (fun _ _ => true) latU1 [] latU1 0 0 rfl rfl

/-- Claim C5 counterexample: on the 1×1 lattice the step computes
`ΔE = 8`, not `0`, and with temperature 1 and uniform draw `1/2` the step
rejects, leaving the lattice unchanged — it does not always accept. -/
theorem size_one_counterexample :
    deltaE latU1 0 0 = 8 ∧ deltaE latU1 0 0 ≠ 0 ∧
    UpdateLatticeRel latU1 0 0 ((1 : ℝ)/2) latU1 := by
  have hd : deltaE latU1 0 0 = 8 := by decide
  have hexp : Real.exp (-8 : ℝ) ≤ (1 : ℝ)/2 := by
    have h9 : (9 : ℝ) ≤ Real.exp 8 := by
      have := Real.add_one_le_exp (8 : ℝ)
      linarith
    have hinv : (Real.exp 8)⁻¹ ≤ (9 : ℝ)⁻¹ :=
      inv_anti₀ (by norm_num) h9
    rw [Real.exp_neg]
    linarith
  have hna : ¬ accepts latU1 0 0 ((1 : ℝ)/2) := by
    intro ha
    obtain hle | hgt := ha
    · omega
    · rw [hd] at hgt
      have hT : ((latU1.T : ℚ) : ℝ) = 1 := by norm_num [latU1]
      rw [hT] at hgt
      norm_num at hgt
      linarith
  exact ⟨hd, by omega, fun ha => absurd ha hna, fun _ => rfl⟩

/-- Claim C5 (amended): on a lattice of size 1 (every neighbor access wraps
back to the single site), the ΔE computed by the Metropolis step equals 8
for either spin value — not 0 — and therefore the step flips the spin if
and only if `exp(-8 / T)` exceeds the uniform draw, rather than always. -/
theorem size_one_step (lattice : IsingLattice) (u : ℝ)
    (lattice' : IsingLattice)
    (hsize : lattice.size = 1)
    (hs : lattice.system 0 0 = 1 ∨ lattice.system 0 0 = -1)
    (hstep : UpdateLatticeRel lattice 0 0 u lattice') :
    deltaE lattice 0 0 = 8 ∧
    (lattice' = flipAt lattice 0 0 ↔
      Real.exp (-(8 : ℝ) * (1 / (lattice.T : ℝ))) > u) := by
  have hsz : (lattice.size : ℤ) = 1 := by rw [hsize]; norm_num
  have hd : deltaE lattice 0 0 = 8 := by
    unfold deltaE CalculateEnergy BoundaryCondition
    rw [hsz]
    simp only [Int.emod_one]
    obtain h | h := hs <;> rw [h] <;> norm_num
  have hacc : accepts lattice 0 0 u ↔
      Real.exp (-(8 : ℝ) * (1 / (lattice.T : ℝ))) > u := by
    unfold accepts
    rw [hd]
    norm_num
  refine ⟨hd, ?_, ?_⟩
  · intro hflip
    by_cases ha : accepts lattice 0 0 u
    · exact hacc.mp ha
    · exfalso
      rw [hstep.2 ha] at hflip
      have hcell := congrArg (fun L => L.system 0 0) hflip
      simp only [flipAt] at hcell
      obtain h | h := hs <;> rw [h] at hcell <;> norm_num at hcell
  · intro hexp
    exact hstep.1 (hacc.mpr hexp)

/-- Claim C5 (amended) witness: the 1×1 uniform lattice with uniform draw
`0`; the draw is below `exp(-8/T) > 0`, so this run flips the spin. -/
theorem size_one_step_witness :
    deltaE latU1 0 0 = 8 ∧
    (flipAt latU1 0 0 = flipAt latU1 0 0 ↔
      Real.exp (-(8 : ℝ) * (1 / (latU1.T : ℝ))) > (0 : ℝ)) :=
  size_one_step latU1 0 (flipAt latU1 0 0) rfl (Or.inl rfl)
    ⟨fun _ => rfl, fun hna => absurd (Or.inr (Real.exp_pos _)) hna⟩

/-- Claim C6 counterexample: `BuildSystem` with the recognized mode token
`r` and the non-positive size `0` succeeds (numpy happily allocates a
`0 × 0` array), so construction does not fail for every non-positive
size. -/
theorem BuildSystem_size_zero_ok :
    (BuildSystem "r" 0 1 (fun _ _ => true)).isOk = true := rfl

/-- Claim C6 (amended): `BuildSystem` fails exactly when the mode token is
unrecognized or the size is negative (numpy rejects negative dimensions);
`size = 0` builds an empty lattice without error.  On failure no lattice is
returned, and every lattice that is returned carries the requested size and
temperature fully initialized — there is no partial construction.
Construction is the only failure on positive sizes: the step's site draw
and the internal-energy and heat-capacity computations succeed on every
lattice of positive size, and raise exactly on the degenerate size-0
lattices that the unvalidated size admits. -/
theorem BuildSystem_error_condition (mode : String) (s : ℤ) (t : ℚ)
    (d : ℤ → ℤ → Bool) :
    ((BuildSystem mode s t d).isOk = true ↔
      ((mode = "r" ∨ mode = "u") ∧ 0 ≤ s)) ∧
    (∀ lattice, BuildSystem mode s t d = .ok lattice →
      lattice.size = s.toNat ∧ lattice.T = t) ∧
    (∀ lattice : IsingLattice,
      ((UpdateLatticeRandint lattice).isOk = true ↔ 0 < lattice.size) ∧
      ((InternalEnergyE lattice).isOk = true ↔ 0 < lattice.size) ∧
      ((HeatCapacityE lattice).isOk = true ↔ 0 < lattice.size)) := by
  have htotal : ∀ lattice : IsingLattice,
      ((UpdateLatticeRandint lattice).isOk = true ↔ 0 < lattice.size) ∧
      ((InternalEnergyE lattice).isOk = true ↔ 0 < lattice.size) ∧
      ((HeatCapacityE lattice).isOk = true ↔ 0 < lattice.size) := by
    intro lattice
    unfold HeatCapacityE InternalEnergyE UpdateLatticeRandint
    rcases Nat.eq_zero_or_pos lattice.size with hz | hpos
    · rw [if_pos hz, if_pos hz]
      refine ⟨⟨(fun h => by cases h), (fun h => by omega)⟩,
        ⟨(fun h => by cases h), (fun h => by omega)⟩,
        ⟨(fun h => by cases h), (fun h => by omega)⟩⟩
    · rw [if_neg (by omega), if_neg (by omega)]
      exact ⟨⟨fun _ => hpos, fun _ => rfl⟩, ⟨fun _ => hpos, fun _ => rfl⟩,
        ⟨fun _ => hpos, fun _ => rfl⟩⟩
  unfold BuildSystem
  split_ifs with h1 h2 h3 h4
  · refine ⟨⟨(fun h => by cases h), (fun h => absurd h.2 (by omega))⟩, ?_, htotal⟩
    intro lattice hl
    cases hl
  · refine ⟨⟨(fun _ => ⟨Or.inl h1, by omega⟩), (fun _ => rfl)⟩, ?_, htotal⟩
    intro lattice hl
    cases hl
    exact ⟨rfl, rfl⟩
  · refine ⟨⟨(fun h => by cases h), (fun h => absurd h.2 (by omega))⟩, ?_, htotal⟩
    intro lattice hl
    cases hl
  · refine ⟨⟨(fun _ => ⟨Or.inr h3, by omega⟩), (fun _ => rfl)⟩, ?_, htotal⟩
    intro lattice hl
    cases hl
    exact ⟨rfl, rfl⟩
  · refine ⟨⟨(fun h => by cases h), (fun h => ?_)⟩, ?_, htotal⟩
    · obtain hm | hm := h.1
      · exact absurd hm h1
      · exact absurd hm h3
    · intro lattice hl
      cases hl

/-- Claim C6 (amended) witness: a recognized mode with positive size
builds successfully, and on the positively-sized checkerboard lattice the
site draw and both fallible observables succeed. -/
theorem BuildSystem_error_condition_witness :
    (BuildSystem "u" 3 1 (fun _ _ => true)).isOk = true ∧
    (UpdateLatticeRandint latCB).isOk = true ∧
    (InternalEnergyE latCB).isOk = true ∧
    (HeatCapacityE latCB).isOk = true :=
  ⟨(BuildSystem_error_condition "u" 3 1 (fun _ _ => true)).1.mpr
      ⟨Or.inr rfl, by decide⟩,
    ((BuildSystem_error_condition "u" 3 1 (fun _ _ => true)).2.2 latCB).1.mpr
      (by decide),
    ((BuildSystem_error_condition "u" 3 1 (fun _ _ => true)).2.2 latCB).2.1.mpr
      (by decide),
    ((BuildSystem_error_condition "u" 3 1 (fun _ _ => true)).2.2 latCB).2.2.mpr
      (by decide)⟩

/-- Claim C9: negating every spin simultaneously leaves `CalculateEnergy`
at every site, both components of `InternalEnergy`, and `HeatCapacity`
unchanged. -/
theorem spin_inversion_invariant (lattice : IsingLattice) :
    InternalEnergy (negLattice lattice) = InternalEnergy lattice ∧
    HeatCapacity (negLattice lattice) = HeatCapacity lattice := by
  have hsz : (negLattice lattice).size = lattice.size := rfl
  have hE : ∀ N M : ℤ,
      CalculateEnergy (negLattice lattice) N M = CalculateEnergy lattice N M := by
    intro N M
    simp only [CalculateEnergy, BoundaryCondition, negLattice, hsz]
    ring
  have hI : InternalEnergy (negLattice lattice) = InternalEnergy lattice := by
    simp only [InternalEnergy, hsz, hE]
  exact ⟨hI, by simp only [HeatCapacity, hI]⟩

/-- A fold that adds `f` into the first and `g` into the second component
accumulates the two list sums. -/
theorem foldl_pair_add (f g : ℕ → ℤ) (l : List ℕ) (p : ℤ × ℤ) :
    l.foldl (fun acc x => (acc.1 + f x, acc.2 + g x)) p =
      (p.1 + (l.map f).sum, p.2 + (l.map g).sum) := by
  induction l generalizing p with
  | nil => simp
  | cons x xs ih => simp [ih, add_assoc]

/-- Summing a function mapped over `List.range` is the `Finset.range`
sum. -/
theorem list_range_map_sum (f : ℕ → ℤ) (n : ℕ) :
    ((List.range n).map f).sum = ∑ i ∈ Finset.range n, f i := by
  induction n with
  | zero => simp
  | succ n ih => simp [List.range_succ, Finset.sum_range_succ, ih]

/-- The accumulation loop of `InternalEnergy` computes the site sums of the
local energy and of its square. -/
theorem InternalEnergy_eq_sum (lattice : IsingLattice) :
    InternalEnergy lattice =
      ((1 / (lattice.size : ℚ) ^ 2) *
         ((∑ i ∈ Finset.range lattice.size, ∑ j ∈ Finset.range lattice.size,
            CalculateEnergy lattice (i : ℤ) (j : ℤ) : ℤ) : ℚ),
       (1 / (lattice.size : ℚ) ^ 2) *
         ((∑ i ∈ Finset.range lattice.size, ∑ j ∈ Finset.range lattice.size,
            CalculateEnergy lattice (i : ℤ) (j : ℤ) ^ 2 : ℤ) : ℚ)) := by
  have h1 : ∀ (acc : ℤ × ℤ), ∀ i ∈ List.range lattice.size,
      (List.range lattice.size).foldl
        (fun (acc2 : ℤ × ℤ) (j : ℕ) =>
          let e := CalculateEnergy lattice (i : ℤ) (j : ℤ)
          (acc2.1 + e, acc2.2 + e ^ 2)) acc =
      (acc.1 + ((List.range lattice.size).map
          (fun (j : ℕ) => CalculateEnergy lattice (i : ℤ) (j : ℤ))).sum,
       acc.2 + ((List.range lattice.size).map
          (fun (j : ℕ) => CalculateEnergy lattice (i : ℤ) (j : ℤ) ^ 2)).sum) := by
    intro acc i _
    exact foldl_pair_add _ _ _ _
  have h2 := List.foldl_ext _ _ (((0 : ℤ), (0 : ℤ))) h1
  simp only [InternalEnergy]
  rw [h2, foldl_pair_add]
  simp only [zero_add, list_range_map_sum]

/-- Claim C7: `InternalEnergy` returns the pair
`(U, U2) = ((1/size²) Σ localEnergy, (1/size²) Σ localEnergy²)` summed over
all `size²` sites, and `HeatCapacity` returns exactly `U2 - U²` computed
from that pair. -/
theorem InternalEnergy_HeatCapacity_spec (lattice : IsingLattice) :
    InternalEnergy lattice =
      ((1 / (lattice.size : ℚ) ^ 2) *
         ∑ i ∈ Finset.range lattice.size, ∑ j ∈ Finset.range lattice.size,
           (CalculateEnergy lattice (i : ℤ) (j : ℤ) : ℚ),
       (1 / (lattice.size : ℚ) ^ 2) *
         ∑ i ∈ Finset.range lattice.size, ∑ j ∈ Finset.range lattice.size,
           (CalculateEnergy lattice (i : ℤ) (j : ℤ) : ℚ) ^ 2) ∧
    HeatCapacity lattice =
      (InternalEnergy lattice).2 - (InternalEnergy lattice).1 ^ 2 := by
  constructor
  · rw [InternalEnergy_eq_sum]
    push_cast
    rfl
  · rfl

/-- A mean of squares minus the squared mean is non-negative, given the
Cauchy-Schwarz bound on the sums. -/
theorem variance_form_nonneg (n2 SA SB : ℚ) (hn : 0 < n2)
    (hkey : SA ^ 2 ≤ n2 * SB) :
    0 ≤ (1 / n2) * SB - ((1 / n2) * SA) ^ 2 := by
  have h1 : (1 / n2) * SB - ((1 / n2) * SA) ^ 2 =
      (n2 * SB - SA ^ 2) / n2 ^ 2 := by
    field_simp
    ring
  rw [h1]
  apply div_nonneg (by linarith) (by positivity)

/-- Claim C10: `HeatCapacity` is non-negative for every lattice of positive
size: the returned quantity is the variance of the per-site local energy in
exact arithmetic. -/
theorem HeatCapacity_nonneg (lattice : IsingLattice)
    (hsize : 0 < lattice.size) :
    0 ≤ HeatCapacity lattice := by
  have hcard : (((Finset.range lattice.size) ×ˢ (Finset.range lattice.size)).card : ℚ) =
      (lattice.size : ℚ) ^ 2 := by
    rw [Finset.card_product, Finset.card_range]
    push_cast
    ring
  have key : (∑ p ∈ (Finset.range lattice.size) ×ˢ (Finset.range lattice.size),
        (CalculateEnergy lattice (p.1 : ℤ) (p.2 : ℤ) : ℚ)) ^ 2 ≤
      ((((Finset.range lattice.size) ×ˢ (Finset.range lattice.size)).card : ℚ)) *
        ∑ p ∈ (Finset.range lattice.size) ×ˢ (Finset.range lattice.size),
          (CalculateEnergy lattice (p.1 : ℤ) (p.2 : ℤ) : ℚ) ^ 2 :=
    sq_sum_le_card_mul_sum_sq
  rw [Finset.sum_product, Finset.sum_product, hcard] at key
  have hSA : ((∑ i ∈ Finset.range lattice.size, ∑ j ∈ Finset.range lattice.size,
      CalculateEnergy lattice (i : ℤ) (j : ℤ) : ℤ) : ℚ) =
      ∑ i ∈ Finset.range lattice.size, ∑ j ∈ Finset.range lattice.size,
        (CalculateEnergy lattice (i : ℤ) (j : ℤ) : ℚ) := by
    push_cast
    rfl
  have hSB : ((∑ i ∈ Finset.range lattice.size, ∑ j ∈ Finset.range lattice.size,
      CalculateEnergy lattice (i : ℤ) (j : ℤ) ^ 2 : ℤ) : ℚ) =
      ∑ i ∈ Finset.range lattice.size, ∑ j ∈ Finset.range lattice.size,
        (CalculateEnergy lattice (i : ℤ) (j : ℤ) : ℚ) ^ 2 := by
    push_cast
    rfl
  have hn : (0 : ℚ) < (lattice.size : ℚ) ^ 2 := by
    have hq : (0 : ℚ) < (lattice.size : ℚ) := by exact_mod_cast hsize
    positivity
  unfold HeatCapacity
  rw [InternalEnergy_eq_sum lattice]
  dsimp only
  rw [hSA, hSB]
  exact variance_form_nonneg _ _ _ hn key

/-- Claim C10 witness: the 2×2 checkerboard lattice. -/
theorem HeatCapacity_nonneg_witness :
    0 < latCB.size ∧ 0 ≤ HeatCapacity latCB :=
  ⟨by decide, HeatCapacity_nonneg latCB (by decide)⟩

/-- Claim C8: on every lattice whose cells are all ±1, `Magnetization`
returns `|Σ spin| / size²`, which lies in `[0, 1]`; and on a freshly built
uniform-mode lattice of any positive size it returns exactly `1`. -/
theorem Magnetization_spec :
    (∀ lattice : IsingLattice, ValidSpins lattice →
      0 ≤ Magnetization lattice ∧ Magnetization lattice ≤ 1) ∧
    (∀ (s : ℤ) (t : ℚ) (d : ℤ → ℤ → Bool) (lattice : IsingLattice),
      0 < s → BuildSystem "u" s t d = .ok lattice →
      Magnetization lattice = 1) := by
  constructor
  · intro lattice hv
    refine ⟨abs_nonneg _, ?_⟩
    rcases Nat.eq_zero_or_pos lattice.size with hz | hpos
    · simp [Magnetization, hz]
    · have hterm : ∀ i j : ℤ, |(lattice.system i j : ℚ)| = 1 := by
        intro i j
        obtain h | h := hv i j <;> rw [h] <;> norm_num
      have habs : |(∑ i ∈ Finset.range lattice.size, ∑ j ∈ Finset.range lattice.size,
          lattice.system (i : ℤ) (j : ℤ) : ℚ)| ≤ (lattice.size : ℚ) ^ 2 := by
        calc |(∑ i ∈ Finset.range lattice.size, ∑ j ∈ Finset.range lattice.size,
              lattice.system (i : ℤ) (j : ℤ) : ℚ)| ≤
            ∑ i ∈ Finset.range lattice.size,
              |(∑ j ∈ Finset.range lattice.size,
                lattice.system (i : ℤ) (j : ℤ) : ℚ)| :=
            Finset.abs_sum_le_sum_abs _ _
          _ ≤ ∑ i ∈ Finset.range lattice.size,
              ∑ j ∈ Finset.range lattice.size,
                |(lattice.system (i : ℤ) (j : ℤ) : ℚ)| :=
            Finset.sum_le_sum (fun i _ => Finset.abs_sum_le_sum_abs _ _)
          _ = (lattice.size : ℚ) ^ 2 := by
              simp only [hterm, Finset.sum_const, Finset.card_range,
                nsmul_eq_mul, mul_one]
              ring
      have hq : (0 : ℚ) < (lattice.size : ℚ) := by exact_mod_cast hpos
      unfold Magnetization
      rw [abs_div, abs_of_nonneg (by positivity : (0 : ℚ) ≤ (lattice.size : ℚ) ^ 2)]
      rw [div_le_one (by positivity)]
      exact habs
  · intro s t d lattice hs hb
    have hb' : BuildSystem "u" s t d =
        if s < 0 then .error "negative dimensions are not allowed"
        else .ok ⟨s.toNat, t, fun _ _ => 1⟩ := rfl
    rw [hb', if_neg (by omega : ¬ s < 0)] at hb
    cases hb
    have hn : (0 : ℚ) < (s.toNat : ℚ) := by
      have : 0 < s.toNat := by omega
      exact_mod_cast this
    unfold Magnetization
    dsimp only
    rw [Finset.sum_const, Finset.card_range]
    rw [Finset.sum_const, Finset.card_range]
    push_cast
    rw [abs_of_nonneg (by positivity)]
    field_simp
    ring

/-- Claim C8 witness: building the uniform lattice at size 1 gives
magnetization exactly 1. -/
theorem Magnetization_spec_witness :
    0 < (1 : ℤ) ∧ Magnetization latU1 = 1 :=
  ⟨by decide,
    Magnetization_spec.2 1 1 (fun _ _ => true) latU1 (by decide) rfl⟩

end Ising
